import Mathlib

/-!
Verification of the alertmanager configuration model (`config/config.go` and the
`types` Matcher file): label matchers, matcher sets and their ordering, the
route tree decoding checks, secret redaction, and the config defaulting and
validation cascade around `Load`.

Regular expressions are represented by their syntax trees: the textual
regex syntax is handled by the external Go standard library (`regexp`), and
the structural YAML decode is likewise external, so pattern strings enter the
model either as parsed trees or through the small parser model below.
-/

/-- Syntax tree of a (Go RE2 style) regular expression, covering the constructs
the repository relies on: literals, any-char `.`, the `^` and `$` anchors,
alternation, concatenation and Kleene star. -/
inductive RE where
  | emptyset
  | eps
  | lit (c : Char)
  | anyc
  | bol
  | eol
  | alt (r s : RE)
  | cat (r s : RE)
  | star (r : RE)
deriving DecidableEq, Repr

/-- Bounded unfolding of Kleene star over spans: `pstar pr gas i j` decides
whether the span `[i, j)` splits into one or more non-empty blocks accepted by
`pr` (or is empty).  Each step consumes at least one position, so a gas of
`j - i` is exhaustive. -/
def pstar (pr : Nat → Nat → Bool) : Nat → Nat → Nat → Bool
  | 0, i, j => i == j
  | g + 1, i, j =>
    i == j ||
      (List.range (j + 1)).any fun k => decide (i < k) && pr i k && pstar pr g k j

/-- Positional span matching: `pmatch t r i j` holds when the regular
expression `r` matches the span `[i, j)` of the text `t`.  The anchors `^` and
`$` are empty-width assertions on the absolute position in `t`, exactly as in
Go's `regexp` (without multiline mode). -/
def pmatch (t : List Char) : RE → Nat → Nat → Bool
  | .emptyset, _, _ => false
  | .eps, i, j => i == j
  | .lit c, i, j => j == i + 1 && t.get? i == some c
  | .anyc, i, j =>
    j == i + 1 &&
      (match t.get? i with
       | some c => c != '\n'
       | none => false)
  | .bol, i, j => i == j && i == 0
  | .eol, i, j => i == j && i == t.length
  | .alt r s, i, j => pmatch t r i j || pmatch t s i j
  | .cat r s, i, j =>
    (List.range (j + 1)).any fun k => decide (i ≤ k) && pmatch t r i k && pmatch t s k j
  | .star r, i, j => pstar (pmatch t r) (j - i) i j

/-- Unanchored Boolean matching semantics of Go's `Regexp.MatchString`: the
expression matches the string when it matches some span of it. -/
def matchStringRE (r : RE) (t : List Char) : Bool :=
  (List.range (t.length + 1)).any fun i =>
    (List.range (t.length + 1)).any fun j => decide (i ≤ j) && pmatch t r i j

/-- Full-string matching: the pattern matches the entire text. -/
def reFullMatch (r : RE) (t : List Char) : Bool :=
  pmatch t r 0 t.length

/-- The syntax tree of `"^(?:" + s + ")$"` built from the tree of `s`:
concatenating the begin anchor, the grouped pattern and the end anchor. -/
def anchorRE (r : RE) : RE :=
  .cat .bol (.cat r .eol)

/-- A span match of the anchored pattern forces the span to be the whole text,
on which the bare pattern must match. -/
theorem pmatch_anchorRE (p : RE) (t : List Char) (i j : Nat) :
    pmatch t (anchorRE p) i j = true ↔
      i = 0 ∧ j = t.length ∧ pmatch t p 0 t.length = true := by
  unfold anchorRE
  simp only [pmatch, List.any_eq_true, List.mem_range, Bool.and_eq_true,
    decide_eq_true_eq, beq_iff_eq]
  constructor
  · rintro ⟨k, -, ⟨-, hik, hi0⟩, k2, -, ⟨-, hp⟩, hk2j, hk2len⟩
    subst hi0
    subst hk2j
    rw [hk2len, ← hik] at hp
    exact ⟨rfl, hk2len, hp⟩
  · rintro ⟨hi0, hj, hp⟩
    subst hi0
    subst hj
    exact ⟨0, by omega, ⟨Nat.le_refl 0, rfl, rfl⟩,
      t.length, by omega, ⟨Nat.zero_le _, hp⟩, rfl, rfl⟩

/-- Anchoring theorem: substring search for the anchored pattern `^(?:p)$`
coincides with matching `p` against the whole string, so a match of a proper
substring alone never makes the anchored pattern accept. -/
theorem matchStringRE_anchorRE (p : RE) (t : List Char) :
    matchStringRE (anchorRE p) t = reFullMatch p t := by
  cases hfull : reFullMatch p t with
  | true =>
    unfold matchStringRE
    rw [List.any_eq_true]
    refine ⟨0, by simp [List.mem_range], ?_⟩
    rw [List.any_eq_true]
    refine ⟨t.length, by simp [List.mem_range], ?_⟩
    simp only [Bool.and_eq_true, decide_eq_true_eq]
    exact ⟨Nat.zero_le _,
      (pmatch_anchorRE p t 0 t.length).mpr ⟨rfl, rfl, hfull⟩⟩
  | false =>
    rw [← Bool.not_eq_true]
    intro hms
    unfold matchStringRE at hms
    rw [List.any_eq_true] at hms
    obtain ⟨i, -, hms⟩ := hms
    rw [List.any_eq_true] at hms
    obtain ⟨j, -, hms⟩ := hms
    simp only [Bool.and_eq_true, decide_eq_true_eq] at hms
    obtain ⟨-, hms⟩ := hms
    obtain ⟨-, -, hp⟩ := (pmatch_anchorRE p t i j).mp hms
    rw [show pmatch t p 0 t.length = reFullMatch p t from rfl, hfull] at hp
    exact Bool.noConfusion hp

/-- Characters that are regular-expression metacharacters and cannot stand for
themselves unescaped. -/
def reMeta : List Char :=
  ['|', '*', '+', '?', '(', ')', '^', '$', '.', '[', ']', '\\', '{', '}']

/-- Fold postfix repetition operators onto a parsed atom: `*` is Kleene star,
`r+` abbreviates `r r*` and `r?` abbreviates `(r | ε)`. -/
def pSuffix : RE → List Char → RE × List Char
  | r, '*' :: rest => pSuffix (.star r) rest
  | r, '+' :: rest => pSuffix (.cat r (.star r)) rest
  | r, '?' :: rest => pSuffix (.alt r .eps) rest
  | r, cs => (r, cs)

mutual

/-- Fueled recursive-descent parse of an alternation (`a|b|...`). -/
def pAlt : Nat → List Char → Option (RE × List Char)
  | 0, _ => none
  | f + 1, cs =>
    match pCat f cs with
    | none => none
    | some (r, cs1) =>
      match cs1 with
      | '|' :: rest =>
        match pAlt f rest with
        | some (r2, cs2) => some (.alt r r2, cs2)
        | none => none
      | _ => some (r, cs1)

/-- Fueled parse of a concatenation of repeated atoms, stopping at `|`, `)` or
the end of the input. -/
def pCat : Nat → List Char → Option (RE × List Char)
  | 0, _ => none
  | f + 1, cs =>
    match cs with
    | [] => some (.eps, [])
    | '|' :: _ => some (.eps, cs)
    | ')' :: _ => some (.eps, cs)
    | _ =>
      match pRep f cs with
      | none => none
      | some (r, cs1) =>
        match pCat f cs1 with
        | none => none
        | some (r2, cs2) => some (.cat r r2, cs2)

/-- Fueled parse of one atom together with its postfix operators. -/
def pRep : Nat → List Char → Option (RE × List Char)
  | 0, _ => none
  | f + 1, cs =>
    match pAtom f cs with
    | none => none
    | some (r, cs1) => some (pSuffix r cs1)

/-- Fueled parse of an atom: a group `(...)` or `(?:...)`, the wildcard `.`,
an anchor, an escaped punctuation character, or a literal character. -/
def pAtom : Nat → List Char → Option (RE × List Char)
  | 0, _ => none
  | f + 1, cs =>
    match cs with
    | '(' :: '?' :: ':' :: rest =>
      match pAlt f rest with
      | some (r, ')' :: cs2) => some (r, cs2)
      | _ => none
    | '(' :: rest =>
      match pAlt f rest with
      | some (r, ')' :: cs2) => some (r, cs2)
      | _ => none
    | '.' :: rest => some (.anyc, rest)
    | '^' :: rest => some (.bol, rest)
    | '$' :: rest => some (.eol, rest)
    | '\\' :: c :: rest =>
      if c.isAlphanum then none else some (.lit c, rest)
    | c :: rest =>
      if c ∈ reMeta then none else some (.lit c, rest)
    | [] => none

end

/-- Model of the external Go standard-library regular-expression parser
(`regexp.Compile`, syntax side only), for the fragment of RE2 syntax described
at `reMeta`/`pAtom`; inputs outside the fragment are rejected.  The repository
itself never parses regex text: it delegates to this external library. -/
def parseRE (s : String) : Option RE :=
  match pAlt (4 * s.length + 16) s.data with
  | some (r, []) => some r
  | _ => none

/-- A compiled Go regular expression: the parsed expression together with the
source text it was compiled from (returned by Go's `Regexp.String`). -/
structure GoRegex where
  re : RE
  src : String
deriving DecidableEq, Repr

/-- Boolean matching à la Go `Regexp.MatchString`: the expression matches
somewhere in the string. -/
def GoRegex.MatchString (g : GoRegex) (s : String) : Bool :=
  matchStringRE g.re s.data

/-- Model of `regexp.Compile s`: parse the pattern, keeping its source text. -/
def regexpCompile (s : String) : Option GoRegex :=
  (parseRE s).map fun p => ⟨p, s⟩

/-- Model of `regexp.Compile ("^(?:" + s + ")$")`, the compilation the
repository performs: the added wrapper is fixed syntax, so the wrapped pattern
parses exactly when `s` does, and its tree is the anchored tree of `s`. -/
def regexpCompileAnchored (s : String) : Option GoRegex :=
  (parseRE s).map fun p => ⟨anchorRE p, "^(?:" ++ s ++ ")$"⟩

/-- Label-name grammar `[a-zA-Z_][a-zA-Z0-9_]*` of
`model.LabelName.IsValid` / `model.LabelNameRE` (external prometheus/common). -/
def labelNameValid (s : String) : Bool :=
  match s.data with
  | [] => false
  | c :: cs =>
    (c.isAlpha || c == '_') &&
      cs.all fun d => d.isAlpha || d.isDigit || d == '_'

/-- `model.LabelValue.IsValid` demands a valid UTF-8 string; a Lean `String`
is always well-formed Unicode, so the check is constantly true here. -/
def labelValueValid (_ : String) : Bool :=
  true

/-- A label set: the labels of one alert, as name/value pairs
(`model.LabelSet`). -/
def LabelSet : Type :=
  List (String × String)

/-- Map lookup on a label set; as in Go, an absent key yields the zero value,
the empty string. -/
def lsetGet (l : LabelSet) (n : String) : String :=
  match List.lookup n l with
  | some v => v
  | none => ""

/-- `types.Matcher`: a matching rule for the value of one label.  The `regex`
field models the private `regex *regexp.Regexp` pointer; `none` is a nil
pointer. -/
structure Matcher where
  Name : String
  Value : String
  IsRegex : Bool
  regex : Option GoRegex
deriving DecidableEq, Repr

/-- `Matcher.Init`: compile `"^(?:" + Value + ")$"` and store it when the
matcher is a regex matcher; returns the updated matcher (Go mutates in
place). -/
def Matcher.Init (m : Matcher) : Except String Matcher :=
  if !m.IsRegex then .ok m
  else
    match regexpCompileAnchored m.Value with
    | some re => .ok { m with regex := some re }
    | none => .error ("error parsing regexp: " ++ m.Value)

/-- `Matcher.Validate`: check the label name, that a regex value compiles
(the compiled form is discarded), and that an exact value is a non-empty valid
label value. -/
def Matcher.Validate (m : Matcher) : Except String Unit :=
  if !(labelNameValid m.Name) then
    .error ("invalid name \x22" ++ m.Name ++ "\x22")
  else if m.IsRegex then
    match regexpCompile m.Value with
    | some _ => .ok ()
    | none => .error ("invalid regular expression \x22" ++ m.Value ++ "\x22")
  else if !(labelValueValid m.Value) || m.Value.length == 0 then
    .error ("invalid value \x22" ++ m.Value ++ "\x22")
  else .ok ()

/-- `Matcher.Match`: look the label up (absent means empty), then compare
exactly or through the stored compiled regex.  In the regex branch Go
dereferences the `regex` pointer; on a nil pointer that is a panic, modeled
by `none`. -/
def Matcher.Match (m : Matcher) (lset : LabelSet) : Option Bool :=
  let v := lsetGet lset m.Name
  if m.IsRegex then
    match m.regex with
    | some re => some (re.MatchString v)
    | none => none
  else
    some (v == m.Value)

/-- `NewMatcher`: an exact (non-regex) matcher; no compiled regex is set. -/
def NewMatcher (name : String) (value : String) : Matcher :=
  ⟨name, value, false, none⟩

/-- `NewRegexMatcher`: a regex matcher built from an already-compiled regex;
`Value` is `re.String()` and the compiled regex is stored at construction. -/
def NewRegexMatcher (name : String) (re : GoRegex) : Matcher :=
  ⟨name, re.src, true, some re⟩

/-- `Matchers`: a slice of matchers (`types.Matchers`); must always be
sorted. -/
def Matchers : Type :=
  List Matcher

/-- `Matchers.Less` from the `sort.Interface` implementation: order primarily
by name, then by value, and on full ties put the exact matcher before the
regex matcher. -/
def matcherLess (a b : Matcher) : Bool :=
  if a.Name > b.Name then false
  else if a.Name < b.Name then true
  else if a.Value > b.Value then false
  else if a.Value < b.Value then true
  else !a.IsRegex && b.IsRegex

/-- Rank used to compare regex-ness: exact matchers rank below regex
matchers. -/
def mrank (m : Matcher) : Nat :=
  if m.IsRegex then 1 else 0

/-- The sort key of a matcher: the lexicographic triple
(name, value, regex rank). -/
def mkey (m : Matcher) : String ×ₗ (String ×ₗ Nat) :=
  toLex (m.Name, toLex (m.Value, mrank m))

/-- `matcherLess` decides the lexicographic order on (name, value, exact
before regex). -/
theorem matcherLess_iff (a b : Matcher) :
    matcherLess a b = true ↔
      a.Name < b.Name ∨ a.Name = b.Name ∧
        (a.Value < b.Value ∨ a.Value = b.Value ∧
          a.IsRegex = false ∧ b.IsRegex = true) := by
  unfold matcherLess
  rcases lt_trichotomy a.Name b.Name with h | h | h
  · rw [if_neg (asymm h), if_pos h]
    simp [h]
  · rw [if_neg (by rw [h]; exact lt_irrefl _), if_neg (by rw [h]; exact lt_irrefl _)]
    rcases lt_trichotomy a.Value b.Value with hv | hv | hv
    · rw [if_neg (asymm hv), if_pos hv]
      simp [h, hv]
    · rw [if_neg (by rw [hv]; exact lt_irrefl _),
        if_neg (by rw [hv]; exact lt_irrefl _)]
      cases ha : a.IsRegex <;> cases hb : b.IsRegex <;>
        simp [h, hv, ha, hb, lt_irrefl]
    · rw [if_pos hv]
      simp [h, asymm hv, hv.ne', lt_irrefl]
  · rw [if_pos h]
    simp [asymm h, h.ne']

/-- `matcherLess` is the strict order of the lexicographic sort keys. -/
theorem matcherLess_iff_key (a b : Matcher) :
    matcherLess a b = true ↔ mkey a < mkey b := by
  have hr : mrank a < mrank b ↔ a.IsRegex = false ∧ b.IsRegex = true := by
    cases ha : a.IsRegex <;> cases hb : b.IsRegex <;> simp [mrank, ha, hb]
  rw [matcherLess_iff]
  unfold mkey
  rw [Prod.Lex.lt_iff]
  constructor
  · rintro (h | ⟨he, h⟩)
    · exact Or.inl h
    · refine Or.inr ⟨he, ?_⟩
      rw [Prod.Lex.lt_iff]
      rcases h with h | ⟨hv, h⟩
      · exact Or.inl h
      · exact Or.inr ⟨hv, hr.mpr h⟩
  · rintro (h | ⟨he, h⟩)
    · exact Or.inl h
    · refine Or.inr ⟨he, ?_⟩
      rw [Prod.Lex.lt_iff] at h
      rcases h with h | ⟨hv, h⟩
      · exact Or.inl h
      · exact Or.inr ⟨hv, hr.mp h⟩

/-- The non-strict counterpart of `matcherLess`, the relation under which Go's
`sort.Sort` effectively sorts: `a` may precede `b` when `b` is not strictly
less than `a`. -/
def matcherLE (a b : Matcher) : Prop :=
  matcherLess b a = false

instance : DecidableRel matcherLE := fun a b =>
  inferInstanceAs (Decidable (matcherLess b a = false))

/-- `matcherLE` is comparison of sort keys. -/
theorem matcherLE_iff (a b : Matcher) : matcherLE a b ↔ mkey a ≤ mkey b := by
  unfold matcherLE
  rw [Bool.eq_false_iff, Ne, matcherLess_iff_key, not_lt]

instance : IsTotal Matcher matcherLE :=
  ⟨fun a b => by
    rw [matcherLE_iff, matcherLE_iff]
    exact le_total _ _⟩

instance : IsTrans Matcher matcherLE :=
  ⟨fun a b c hab hbc => by
    rw [matcherLE_iff] at hab hbc ⊢
    exact le_trans hab hbc⟩

/-- `NewMatchers`: return the given matchers sorted (`sort.Sort` on the
`Matchers` ordering; modeled by insertion sort, the algorithm Go itself uses
on short slices, with the translated `Less`). -/
def NewMatchers (ms : List Matcher) : Matchers :=
  List.insertionSort matcherLE ms

/-- Sorting with `NewMatchers` is idempotent: a sorted matcher slice is left
unchanged. -/
theorem NewMatchers_idempotent (ms : List Matcher) :
    NewMatchers (NewMatchers ms) = NewMatchers ms := by
  unfold NewMatchers
  exact (List.sorted_insertionSort matcherLE ms).insertionSort_eq

/-- The fixed redaction placeholder written instead of any secret value. -/
def secretToken : String :=
  "<secret>"

/-- `secretTokenJSON`: the JSON encoding of the placeholder, precomputed once
at process start (`json.Marshal(secretToken)`). -/
def secretTokenJSON : String :=
  "\x22<secret>\x22"

/-- `Secret` is a string that must not be revealed on marshaling. -/
abbrev Secret : Type :=
  String

/-- `Secret.MarshalYAML`: a set secret serializes to the placeholder, an unset
one to YAML null (`none`). -/
def Secret.MarshalYAML (s : Secret) : Option String :=
  if s ≠ "" then some secretToken else none

/-- `Secret.MarshalJSON`: always the JSON-encoded placeholder. -/
def Secret.MarshalJSON (_ : Secret) : String :=
  secretTokenJSON

/-- The fields of Go's `url.URL` that the repository reads or writes. -/
structure URLm where
  Scheme : String := ""
  Host : String := ""
  Path : String := ""
deriving DecidableEq, Repr

/-- Model of the external `url.Parse` (net/url) for the fields used here:
split off `scheme://`, then the host up to the first slash, then the path. -/
def urlParse (s : String) : Option URLm :=
  match s.splitOn "://" with
  | [sch, rest] =>
    match rest.splitOn "/" with
    | [] => some ⟨sch, rest, ""⟩
    | host :: pathParts =>
      some ⟨sch, host,
        if pathParts = [] then "" else "/" ++ String.intercalate "/" pathParts⟩
  | _ => none

/-- `parseURL` of the repository: parse, then require an http or https scheme
and a non-empty host. -/
def parseURL (s : String) : Except String URLm :=
  match urlParse s with
  | none => .error "invalid URL"
  | some u =>
    if u.Scheme ≠ "http" ∧ u.Scheme ≠ "https" then
      .error ("unsupported scheme \x22" ++ u.Scheme ++ "\x22 for URL")
    else if u.Host = "" then .error "missing host for URL"
    else .ok u

/-- `mustParseURL` for the well-formed constant URLs of the default global
config (the Go version panics on failure, which never happens there). -/
def mustParseURL (s : String) : URLm :=
  match parseURL s with
  | .ok u => u
  | .error _ => ⟨"", "", ""⟩

/-- `SecretURL` is a URL that must not be revealed on marshaling; `none` is a
nil inner pointer, `some` with empty fields the empty-but-present sentinel. -/
abbrev SecretURL : Type :=
  Option URLm

/-- The empty-but-present URL sentinel `&url.URL{}`. -/
def emptyURL : URLm :=
  ⟨"", "", ""⟩

/-- `SecretURL.MarshalYAML`: a present URL serializes to the placeholder. -/
def SecretURL.MarshalYAML (s : SecretURL) : Option String :=
  match s with
  | some _ => some secretToken
  | none => none

/-- `SecretURL.MarshalJSON`: always the JSON-encoded placeholder. -/
def SecretURL.MarshalJSON (_ : SecretURL) : String :=
  secretTokenJSON

/-- `SecretURL.UnmarshalYAML`: the placeholder is recognized before any URL
parsing and yields the empty sentinel; anything else is parsed as a URL. -/
def SecretURL.UnmarshalYAML (str : String) : Except String SecretURL :=
  if str = secretToken then .ok (some emptyURL)
  else (parseURL str).map some

/-- Strip the JSON quotes of an encoded string (model of `json.Unmarshal`
into a string, for the inputs relevant here). -/
def jsonUnquote (data : String) : Except String String :=
  if data.startsWith "\x22" ∧ data.endsWith "\x22" ∧ 2 ≤ data.length then
    .ok ((data.drop 1).dropRight 1)
  else .error "invalid JSON string"

/-- `SecretURL.UnmarshalJSON`: both the raw and the JSON-encoded placeholder
are recognized before parsing and yield the empty sentinel. -/
def SecretURL.UnmarshalJSON (data : String) : Except String SecretURL :=
  if data = secretToken ∨ data = secretTokenJSON then .ok (some emptyURL)
  else
    match jsonUnquote data with
    | .error e => .error e
    | .ok s => (parseURL s).map some

/-- `HostPort` represents a `host:port` network address. -/
structure HostPort where
  Host : String := ""
  Port : String := ""
deriving DecidableEq, Repr

/-- `HostPort.String`: empty when both parts are empty, else `host:port`. -/
def HostPort.String (hp : HostPort) : String :=
  if hp.Host = "" ∧ hp.Port = "" then "" else hp.Host ++ ":" ++ hp.Port

/-- `config.Regexp` wraps a compiled regex and the original pattern text to
keep it YAML-marshalable; a `none` regex is a nil embedded pointer. -/
structure Regexp where
  regex : Option GoRegex := none
  original : String := ""
deriving DecidableEq, Repr

/-- `Regexp.UnmarshalYAML`: compile `"^(?:" + s + ")$"` and keep the original
pattern text. -/
def Regexp.UnmarshalYAML (s : String) : Except String Regexp :=
  match regexpCompileAnchored s with
  | some g => .ok ⟨some g, s⟩
  | none => .error ("error parsing regexp: " ++ s)

/-- `GlobalConfig` holds the globally valid defaults (HTTP client configs are
modeled as opaque `Option Unit` pointers). -/
structure GlobalConfig where
  ResolveTimeout : Nat := 0
  HTTPConfig : Option Unit := none
  SMTPFrom : String := ""
  SMTPHello : String := ""
  SMTPSmarthost : HostPort := {}
  SMTPAuthUsername : String := ""
  SMTPAuthPassword : Secret := ""
  SMTPAuthSecret : Secret := ""
  SMTPAuthIdentity : String := ""
  SMTPRequireTLS : Bool := false
  SlackAPIURL : Option SecretURL := none
  PagerdutyURL : Option URLm := none
  OpsGenieAPIURL : Option URLm := none
  OpsGenieAPIKey : Secret := ""
  WeChatAPIURL : Option URLm := none
  WeChatAPISecret : Secret := ""
  WeChatAPICorpID : String := ""
  VictorOpsAPIURL : Option URLm := none
  VictorOpsAPIKey : Secret := ""
deriving DecidableEq, Repr

/-- `DefaultGlobalConfig` with the documented default values (the resolve
timeout is five minutes in nanoseconds). -/
def DefaultGlobalConfig : GlobalConfig where
  ResolveTimeout := 300000000000
  HTTPConfig := some ()
  SMTPHello := "localhost"
  SMTPRequireTLS := true
  PagerdutyURL := some (mustParseURL "https://events.pagerduty.com/v2/enqueue")
  OpsGenieAPIURL := some (mustParseURL "https://api.opsgenie.com/")
  WeChatAPIURL := some (mustParseURL "https://qyapi.weixin.qq.com/cgi-bin/")
  VictorOpsAPIURL :=
    some (mustParseURL "https://alert.victorops.com/integrations/generic/20131114/alert/")

/-- Email notification channel config: only the fields the in-repository
defaulting code touches. -/
structure EmailConfig where
  Smarthost : HostPort := {}
  From : String := ""
  Hello : String := ""
  AuthUsername : String := ""
  AuthPassword : Secret := ""
  AuthSecret : Secret := ""
  AuthIdentity : String := ""
  RequireTLS : Option Bool := none
deriving DecidableEq, Repr

/-- Webhook channel config (defaulting touches only the HTTP config). -/
structure WebhookConfig where
  HTTPConfig : Option Unit := none
deriving DecidableEq, Repr

/-- Slack channel config. -/
structure SlackConfig where
  HTTPConfig : Option Unit := none
  APIURL : Option SecretURL := none
deriving DecidableEq, Repr

/-- Pushover channel config (defaulting touches only the HTTP config). -/
structure PushoverConfig where
  HTTPConfig : Option Unit := none
deriving DecidableEq, Repr

/-- PagerDuty channel config. -/
structure PagerdutyConfig where
  HTTPConfig : Option Unit := none
  URL : Option URLm := none
deriving DecidableEq, Repr

/-- OpsGenie channel config. -/
structure OpsGenieConfig where
  HTTPConfig : Option Unit := none
  APIURL : Option URLm := none
  APIKey : Secret := ""
deriving DecidableEq, Repr

/-- WeChat channel config. -/
structure WechatConfig where
  HTTPConfig : Option Unit := none
  APIURL : Option URLm := none
  APISecret : Secret := ""
  CorpID : String := ""
deriving DecidableEq, Repr

/-- VictorOps channel config. -/
structure VictorOpsConfig where
  HTTPConfig : Option Unit := none
  APIURL : Option URLm := none
  APIKey : Secret := ""
deriving DecidableEq, Repr

/-- `Receiver`: a named bundle of notification channel configurations. -/
structure Receiver where
  Name : String := ""
  EmailConfigs : List EmailConfig := []
  PagerdutyConfigs : List PagerdutyConfig := []
  SlackConfigs : List SlackConfig := []
  WebhookConfigs : List WebhookConfig := []
  OpsGenieConfigs : List OpsGenieConfig := []
  WechatConfigs : List WechatConfig := []
  PushoverConfigs : List PushoverConfig := []
  VictorOpsConfigs : List VictorOpsConfig := []
deriving DecidableEq, Repr

/-- `Receiver.UnmarshalYAML`: after the plain decode a receiver must carry a
name. -/
def Receiver.UnmarshalYAML (r : Receiver) : Except String Receiver :=
  if r.Name = "" then .error "missing name in receiver" else .ok r

/-- `strings.HasSuffix(s, "/")`: the last character of `s` is the path
separator. -/
def endsWithSlash (s : String) : Bool :=
  s.data.getLast? = some '/'

/-- Append the path separator when the API URL path does not already end in
one (`if !strings.HasSuffix(path, "/") { path += "/" }`). -/
def slashURL (u : URLm) : URLm :=
  if endsWithSlash u.Path then u else { u with Path := u.Path ++ "/" }

/-- Defaulting of one webhook config inside `Config.UnmarshalYAML`. -/
def resolveWebhook (g : GlobalConfig) (wh : WebhookConfig) : WebhookConfig :=
  if wh.HTTPConfig.isNone then { wh with HTTPConfig := g.HTTPConfig } else wh

/-- Defaulting of one email config inside `Config.UnmarshalYAML`: smarthost
and from must be set locally or globally, the remaining SMTP fields fall back
to the global values silently. -/
def resolveEmail (g : GlobalConfig) (ec0 : EmailConfig) : Except String EmailConfig :=
  if ec0.Smarthost.String = "" ∧ g.SMTPSmarthost.String = "" then
    .error "no global SMTP smarthost set"
  else if ec0.From = "" ∧ g.SMTPFrom = "" then .error "no global SMTP from set"
  else
    .ok
      { Smarthost := if ec0.Smarthost.String = "" then g.SMTPSmarthost else ec0.Smarthost
        From := if ec0.From = "" then g.SMTPFrom else ec0.From
        Hello := if ec0.Hello = "" then g.SMTPHello else ec0.Hello
        AuthUsername :=
          if ec0.AuthUsername = "" then g.SMTPAuthUsername else ec0.AuthUsername
        AuthPassword :=
          if ec0.AuthPassword = "" then g.SMTPAuthPassword else ec0.AuthPassword
        AuthSecret := if ec0.AuthSecret = "" then g.SMTPAuthSecret else ec0.AuthSecret
        AuthIdentity :=
          if ec0.AuthIdentity = "" then g.SMTPAuthIdentity else ec0.AuthIdentity
        RequireTLS :=
          if ec0.RequireTLS.isNone then some g.SMTPRequireTLS else ec0.RequireTLS }

/-- Defaulting of one Slack config inside `Config.UnmarshalYAML`. -/
def resolveSlack (g : GlobalConfig) (sc : SlackConfig) : Except String SlackConfig :=
  match (if sc.APIURL.isNone then g.SlackAPIURL else sc.APIURL) with
  | none => .error "no global Slack API URL set"
  | some u =>
    .ok
      { HTTPConfig := if sc.HTTPConfig.isNone then g.HTTPConfig else sc.HTTPConfig
        APIURL := some u }

/-- Defaulting of one Pushover config inside `Config.UnmarshalYAML`. -/
def resolvePushover (g : GlobalConfig) (poc : PushoverConfig) : PushoverConfig :=
  if poc.HTTPConfig.isNone then { poc with HTTPConfig := g.HTTPConfig } else poc

/-- Defaulting of one PagerDuty config inside `Config.UnmarshalYAML`. -/
def resolvePagerduty (g : GlobalConfig) (pdc : PagerdutyConfig) :
    Except String PagerdutyConfig :=
  match (if pdc.URL.isNone then g.PagerdutyURL else pdc.URL) with
  | none => .error "no global PagerDuty URL set"
  | some u =>
    .ok
      { HTTPConfig := if pdc.HTTPConfig.isNone then g.HTTPConfig else pdc.HTTPConfig
        URL := some u }

/-- Defaulting of one OpsGenie config inside `Config.UnmarshalYAML`: default
the URL (or fail), append the path separator, then default the key (or
fail). -/
def resolveOpsGenie (g : GlobalConfig) (ogc : OpsGenieConfig) :
    Except String OpsGenieConfig :=
  match (if ogc.APIURL.isNone then g.OpsGenieAPIURL else ogc.APIURL) with
  | none => .error "no global OpsGenie URL set"
  | some u =>
    if ogc.APIKey = "" ∧ g.OpsGenieAPIKey = "" then .error "no global OpsGenie API Key set"
    else
      .ok
        { HTTPConfig := if ogc.HTTPConfig.isNone then g.HTTPConfig else ogc.HTTPConfig
          APIURL := some (slashURL u)
          APIKey := if ogc.APIKey = "" then g.OpsGenieAPIKey else ogc.APIKey }

/-- Defaulting of one WeChat config inside `Config.UnmarshalYAML`: default
the URL, secret and corp id (or fail), then append the path separator. -/
def resolveWechat (g : GlobalConfig) (wcc : WechatConfig) : Except String WechatConfig :=
  match (if wcc.APIURL.isNone then g.WeChatAPIURL else wcc.APIURL) with
  | none => .error "no global Wechat URL set"
  | some u =>
    if wcc.APISecret = "" ∧ g.WeChatAPISecret = "" then .error "no global Wechat ApiSecret set"
    else if wcc.CorpID = "" ∧ g.WeChatAPICorpID = "" then .error "no global Wechat CorpID set"
    else
      .ok
        { HTTPConfig := if wcc.HTTPConfig.isNone then g.HTTPConfig else wcc.HTTPConfig
          APIURL := some (slashURL u)
          APISecret := if wcc.APISecret = "" then g.WeChatAPISecret else wcc.APISecret
          CorpID := if wcc.CorpID = "" then g.WeChatAPICorpID else wcc.CorpID }

/-- Defaulting of one VictorOps config inside `Config.UnmarshalYAML`: default
the URL (or fail), append the path separator, then default the key (or
fail). -/
def resolveVictorOps (g : GlobalConfig) (voc : VictorOpsConfig) :
    Except String VictorOpsConfig :=
  match (if voc.APIURL.isNone then g.VictorOpsAPIURL else voc.APIURL) with
  | none => .error "no global VictorOps URL set"
  | some u =>
    if voc.APIKey = "" ∧ g.VictorOpsAPIKey = "" then .error "no global VictorOps API Key set"
    else
      .ok
        { HTTPConfig := if voc.HTTPConfig.isNone then g.HTTPConfig else voc.HTTPConfig
          APIURL := some (slashURL u)
          APIKey := if voc.APIKey = "" then g.VictorOpsAPIKey else voc.APIKey }

/-- Apply a fallible per-element transformation to each list element in
order, stopping at the first error (the shape of every `for ... range` loop
with an error return in `Config.UnmarshalYAML`). -/
def mapME {α β : Type} (f : α → Except String β) : List α → Except String (List β)
  | [] => .ok []
  | x :: xs =>
    match f x with
    | .error e => .error e
    | .ok y =>
      match mapME f xs with
      | .error e => .error e
      | .ok ys => .ok (y :: ys)

/-- The per-receiver body of the `Config.UnmarshalYAML` receivers loop: apply
all channel defaulting in the source's order. -/
def processReceiver (g : GlobalConfig) (r : Receiver) : Except String Receiver :=
  match mapME (resolveEmail g) r.EmailConfigs with
  | .error e => .error e
  | .ok ecs =>
    match mapME (resolveSlack g) r.SlackConfigs with
    | .error e => .error e
    | .ok scs =>
      match mapME (resolvePagerduty g) r.PagerdutyConfigs with
      | .error e => .error e
      | .ok pdcs =>
        match mapME (resolveOpsGenie g) r.OpsGenieConfigs with
        | .error e => .error e
        | .ok ogcs =>
          match mapME (resolveWechat g) r.WechatConfigs with
          | .error e => .error e
          | .ok wccs =>
            match mapME (resolveVictorOps g) r.VictorOpsConfigs with
            | .error e => .error e
            | .ok vocs =>
              .ok { r with
                WebhookConfigs := r.WebhookConfigs.map (resolveWebhook g)
                EmailConfigs := ecs
                SlackConfigs := scs
                PushoverConfigs := r.PushoverConfigs.map (resolvePushover g)
                PagerdutyConfigs := pdcs
                OpsGenieConfigs := ogcs
                WechatConfigs := wccs
                VictorOpsConfigs := vocs }

/-- The `Config.UnmarshalYAML` receivers loop: reject a repeated receiver name
before processing the receiver, accumulating the names seen so far. -/
def processReceivers (g : GlobalConfig) :
    List Receiver → List String → Except String (List Receiver)
  | [], _ => .ok []
  | r :: rs, names =>
    if r.Name ∈ names then
      .error ("notification config name \x22" ++ r.Name ++ "\x22 is not unique")
    else
      match processReceiver g r with
      | .error e => .error e
      | .ok r2 =>
        match processReceivers g rs (r.Name :: names) with
        | .error e => .error e
        | .ok rs2 => .ok (r2 :: rs2)

/-- The scalar fields of a `Route` node.  `GroupBy`/`GroupByAll` carry no YAML
tag and stay at their zero values until `Route.UnmarshalYAML` fills them from
`GroupByStr`.  Durations are `model.Duration` nanosecond counts behind
pointers (`none` means the field was absent). -/
structure RouteData where
  Receiver : String := ""
  GroupByStr : List String := []
  GroupBy : List String := []
  GroupByAll : Bool := false
  Match : List (String × String) := []
  MatchRE : List (String × Regexp) := []
  Continue : Bool := false
  GroupWait : Option Nat := none
  GroupInterval : Option Nat := none
  RepeatInterval : Option Nat := none
deriving DecidableEq, Repr

/-- A `Route` tree node: its own fields plus the child routes. -/
inductive Route where
  | node (data : RouteData) (Routes : List Route)

/-- The scalar fields of a route node. -/
def Route.data : Route → RouteData
  | .node d _ => d

/-- The child routes of a route node. -/
def Route.Routes : Route → List Route
  | .node _ rs => rs

/-- `MatchRegexps.UnmarshalYAML` checks: every key is a valid label name and
every value carries a compiled regex (not the nil zero value). -/
def checkMatchRegexps : List (String × Regexp) → Except String Unit
  | [] => .ok ()
  | (k, v) :: rest =>
    if !(labelNameValid k) then .error ("invalid label name \x22" ++ k ++ "\x22")
    else if v.regex.isNone then .error ("invalid regexp value for \x22" ++ k ++ "\x22")
    else checkMatchRegexps rest

/-- The `Route.UnmarshalYAML` check that every `match` key is a valid label
name. -/
def checkMatchNames : List (String × String) → Except String Unit
  | [] => .ok ()
  | (k, _) :: rest =>
    if !(labelNameValid k) then .error ("invalid label name \x22" ++ k ++ "\x22")
    else checkMatchNames rest

/-- The `Route.UnmarshalYAML` loop over `GroupByStr`: `"..."` sets the
wildcard flag, any other entry must be a valid label name and is appended to
the explicit group-by list. -/
def buildGroupBy : List String → List String → Bool → Except String (List String × Bool)
  | [], gb, all => .ok (gb, all)
  | l :: ls, gb, all =>
    if l = "..." then buildGroupBy ls gb true
    else if !(labelNameValid l) then
      .error ("invalid label name \x22" ++ l ++ "\x22 in group_by list")
    else buildGroupBy ls (gb ++ [l]) all

/-- The `Route.UnmarshalYAML` duplicate check over the explicit group-by
list. -/
def checkDups : List String → List String → Except String Unit
  | [], _ => .ok ()
  | l :: ls, seen =>
    if l ∈ seen then .error ("duplicated label \x22" ++ l ++ "\x22 in group_by")
    else checkDups ls (l :: seen)

/-- `Route.UnmarshalYAML`, scalar part: validate the nested `match_re` map and
the `match` keys, process `group_by`, and reject explicitly-zero group and
repeat intervals. -/
def decodeRouteData (d : RouteData) : Except String RouteData :=
  match checkMatchRegexps d.MatchRE with
  | .error e => .error e
  | .ok _ =>
    match checkMatchNames d.Match with
    | .error e => .error e
    | .ok _ =>
      match buildGroupBy d.GroupByStr [] false with
      | .error e => .error e
      | .ok (gb, all) =>
        if 0 < gb.length ∧ all = true then
          .error "cannot have wildcard group_by (`...`) and other other labels at the same time"
        else
          match checkDups gb [] with
          | .error e => .error e
          | .ok _ =>
            if d.GroupInterval = some 0 then .error "group_interval cannot be zero"
            else if d.RepeatInterval = some 0 then .error "repeat_interval cannot be zero"
            else .ok { d with GroupBy := gb, GroupByAll := all }

mutual

/-- Structural decode of a route node: the nested child routes decode first
(they are decoded by the generic plain decode), then the node's own
`Route.UnmarshalYAML` checks run. -/
def decodeRoute : Route → Except String Route
  | .node d children =>
    match decodeRoutes children with
    | .error e => .error e
    | .ok cs =>
      match decodeRouteData d with
      | .error e => .error e
      | .ok d2 => .ok (.node d2 cs)

/-- Structural decode of a list of child routes, in order, first error
wins. -/
def decodeRoutes : List Route → Except String (List Route)
  | [] => .ok []
  | r :: rs =>
    match decodeRoute r with
    | .error e => .error e
    | .ok r2 =>
      match decodeRoutes rs with
      | .error e => .error e
      | .ok rs2 => .ok (r2 :: rs2)

end

mutual

/-- `checkReceiver`: fail when a node in the routing tree references a
receiver not in the given name set; children are checked before the node
itself, and an empty receiver field is exempt. -/
def checkReceiver (r : Route) (receivers : List String) : Except String Unit :=
  match r with
  | .node d children =>
    match checkReceiverList children receivers with
    | .error e => .error e
    | .ok _ =>
      if d.Receiver = "" then .ok ()
      else if d.Receiver ∈ receivers then .ok ()
      else .error ("undefined receiver \x22" ++ d.Receiver ++ "\x22 used in route")

/-- `checkReceiver` over a list of sub-routes, in order. -/
def checkReceiverList (rs : List Route) (receivers : List String) : Except String Unit :=
  match rs with
  | [] => .ok ()
  | r :: rest =>
    match checkReceiver r receivers with
    | .error e => .error e
    | .ok _ => checkReceiverList rest receivers

end

mutual

/-- All scalar records in a route tree: the node's own and, after it, those
of all descendants. -/
def routeNodes : Route → List RouteData
  | .node d children => d :: routeNodesList children

/-- All scalar records in a forest of route trees. -/
def routeNodesList : List Route → List RouteData
  | [] => []
  | r :: rs => routeNodes r ++ routeNodesList rs

end

/-- The top-level configuration.  Inhibit rules and template paths undergo no
processing in `Config.UnmarshalYAML` and no claim concerns them; inhibit
rules are omitted from the model. -/
structure Config where
  Global : Option GlobalConfig := none
  Route : Option Route := none
  Receivers : List Receiver := []
  Templates : List String := []

/-- Structural decode of the optional root route. -/
def decodeRouteOpt : Option Route → Except String (Option Route)
  | none => .ok none
  | some r => (decodeRoute r).map some

/-- `Config.UnmarshalYAML`: plain decode of the nested structures (route
nodes, receiver names), restore the default global config when the global
block is absent, run the receivers defaulting loop, check the root route
shape, and check receiver referential integrity. -/
def Config.UnmarshalYAML (c : Config) : Except String Config :=
  match decodeRouteOpt c.Route with
  | .error e => .error e
  | .ok routeDecoded =>
    match mapME Receiver.UnmarshalYAML c.Receivers with
    | .error e => .error e
    | .ok rcvsDecoded =>
      let g := c.Global.getD DefaultGlobalConfig
      match processReceivers g rcvsDecoded [] with
      | .error e => .error e
      | .ok rcvs2 =>
        match routeDecoded with
        | none => .error "no routes provided"
        | some rt =>
          if rt.data.Receiver.length = 0 then
            .error "root route must specify a default receiver"
          else if 0 < rt.data.Match.length ∨ 0 < rt.data.MatchRE.length then
            .error "root route must not have any matchers"
          else
            match checkReceiver rt (rcvs2.map Receiver.Name) with
            | .error e => .error e
            | .ok _ =>
              .ok { c with Global := some g, Route := some rt, Receivers := rcvs2 }

/-- `Load`: run the structural decode (`none` models an empty document, on
which the decoder never invokes `Config.UnmarshalYAML` and the config keeps
its zero value), then check that a root route exists and that it does not set
`continue`. -/
def Load (inp : Option Config) : Except String Config :=
  match (match inp with
         | none => .ok {}
         | some raw => Config.UnmarshalYAML raw : Except String Config) with
  | .error e => .error e
  | .ok cfg =>
    match cfg.Route with
    | none => .error "no route provided in config"
    | some rt =>
      if rt.data.Continue then .error "cannot have continue in root route"
      else .ok cfg

/-- Every input element of a successful `mapME` run has its image in the
output. -/
theorem mapME_ok_forward {α β : Type} (f : α → Except String β) :
    ∀ (l : List α) (l2 : List β), mapME f l = .ok l2 →
      ∀ x ∈ l, ∃ y, y ∈ l2 ∧ f x = .ok y := by
  intro l
  induction l with
  | nil => intro l2 h x hx; exact absurd hx (List.not_mem_nil x)
  | cons a as ih =>
    intro l2 h x hx
    unfold mapME at h
    cases hf : f a with
    | error e => rw [hf] at h; exact Except.noConfusion h
    | ok y =>
      rw [hf] at h
      cases hrest : mapME f as with
      | error e => rw [hrest] at h; exact Except.noConfusion h
      | ok ys =>
        rw [hrest] at h
        injection h with h
        subst h
        rcases List.mem_cons.mp hx with hx | hx
        · subst hx
          exact ⟨y, List.mem_cons_self y ys, hf⟩
        · obtain ⟨y2, hy2, hfy⟩ := ih ys hrest x hx
          exact ⟨y2, List.mem_cons_of_mem y hy2, hfy⟩

/-- Every output element of a successful `mapME` run is the image of an input
element. -/
theorem mapME_ok_backward {α β : Type} (f : α → Except String β) :
    ∀ (l : List α) (l2 : List β), mapME f l = .ok l2 →
      ∀ y ∈ l2, ∃ x, x ∈ l ∧ f x = .ok y := by
  intro l
  induction l with
  | nil =>
    intro l2 h y hy
    unfold mapME at h
    injection h with h
    subst h
    exact absurd hy (List.not_mem_nil y)
  | cons a as ih =>
    intro l2 h y hy
    unfold mapME at h
    cases hf : f a with
    | error e => rw [hf] at h; exact Except.noConfusion h
    | ok y1 =>
      rw [hf] at h
      cases hrest : mapME f as with
      | error e => rw [hrest] at h; exact Except.noConfusion h
      | ok ys =>
        rw [hrest] at h
        injection h with h
        subst h
        rcases List.mem_cons.mp hy with hy | hy
        · subst hy
          exact ⟨a, List.mem_cons_self a as, hf⟩
        · obtain ⟨x, hx, hfx⟩ := ih ys hrest y hy
          exact ⟨x, List.mem_cons_of_mem a hx, hfx⟩

/-- The receiver name check is the identity on success, so the structurally
decoded receiver list is the input list. -/
theorem mapME_receiver_id :
    ∀ (l l2 : List Receiver), mapME Receiver.UnmarshalYAML l = .ok l2 → l2 = l := by
  intro l
  induction l with
  | nil => intro l2 h; unfold mapME at h; injection h with h; exact h.symm ▸ rfl
  | cons a as ih =>
    intro l2 h
    unfold mapME at h
    cases hf : Receiver.UnmarshalYAML a with
    | error e => rw [hf] at h; exact Except.noConfusion h
    | ok y =>
      rw [hf] at h
      cases hrest : mapME Receiver.UnmarshalYAML as with
      | error e => rw [hrest] at h; exact Except.noConfusion h
      | ok ys =>
        rw [hrest] at h
        injection h with h
        subst h
        unfold Receiver.UnmarshalYAML at hf
        split at hf
        · exact Except.noConfusion hf
        · injection hf with hf
          rw [hf, ih ys hrest]

/-- Appending the separator makes the path end in it. -/
theorem endsWithSlash_append (s : String) : endsWithSlash (s ++ "/") = true := by
  simp only [endsWithSlash, String.data_append, decide_eq_true_eq]
  exact List.getLast?_concat _

/-- Path normalization always yields a path ending in the separator. -/
theorem slashURL_slash (u : URLm) : endsWithSlash (slashURL u).Path = true := by
  unfold slashURL
  split
  · assumption
  · exact endsWithSlash_append u.Path

/-- A successfully resolved OpsGenie config has an API URL whose path ends in
the separator. -/
theorem resolveOpsGenie_slash (g : GlobalConfig) (c c2 : OpsGenieConfig)
    (h : resolveOpsGenie g c = .ok c2) :
    ∃ u, c2.APIURL = some u ∧ endsWithSlash u.Path = true := by
  unfold resolveOpsGenie at h
  split at h
  · exact Except.noConfusion h
  · split at h
    · exact Except.noConfusion h
    · injection h with h
      subst h
      exact ⟨slashURL _, rfl, slashURL_slash _⟩

/-- A successfully resolved WeChat config has an API URL whose path ends in
the separator. -/
theorem resolveWechat_slash (g : GlobalConfig) (c c2 : WechatConfig)
    (h : resolveWechat g c = .ok c2) :
    ∃ u, c2.APIURL = some u ∧ endsWithSlash u.Path = true := by
  unfold resolveWechat at h
  split at h
  · exact Except.noConfusion h
  · split at h
    · exact Except.noConfusion h
    · split at h
      · exact Except.noConfusion h
      · injection h with h
        subst h
        exact ⟨slashURL _, rfl, slashURL_slash _⟩

/-- A successfully resolved VictorOps config has an API URL whose path ends in
the separator. -/
theorem resolveVictorOps_slash (g : GlobalConfig) (c c2 : VictorOpsConfig)
    (h : resolveVictorOps g c = .ok c2) :
    ∃ u, c2.APIURL = some u ∧ endsWithSlash u.Path = true := by
  unfold resolveVictorOps at h
  split at h
  · exact Except.noConfusion h
  · split at h
    · exact Except.noConfusion h
    · injection h with h
      subst h
      exact ⟨slashURL _, rfl, slashURL_slash _⟩

/-- Inversion of a successful per-receiver defaulting run: each channel list
of the output is the resolved input list, and the name is unchanged. -/
theorem processReceiver_fields (g : GlobalConfig) (r r2 : Receiver)
    (h : processReceiver g r = .ok r2) :
    mapME (resolveEmail g) r.EmailConfigs = .ok r2.EmailConfigs ∧
    mapME (resolveOpsGenie g) r.OpsGenieConfigs = .ok r2.OpsGenieConfigs ∧
    mapME (resolveWechat g) r.WechatConfigs = .ok r2.WechatConfigs ∧
    mapME (resolveVictorOps g) r.VictorOpsConfigs = .ok r2.VictorOpsConfigs ∧
    r2.Name = r.Name := by
  unfold processReceiver at h
  split at h
  · exact Except.noConfusion h
  · split at h
    · exact Except.noConfusion h
    · split at h
      · exact Except.noConfusion h
      · split at h
        · exact Except.noConfusion h
        · split at h
          · exact Except.noConfusion h
          · split at h
            · exact Except.noConfusion h
            · injection h with h
              subst h
              refine ⟨?_, ?_, ?_, ?_, rfl⟩ <;> assumption

/-- Every receiver of a successful receivers loop is the resolution of an
input receiver (same names, same positions up to membership). -/
theorem processReceivers_ok_backward (g : GlobalConfig) :
    ∀ (rs : List Receiver) (names : List String) (out : List Receiver),
      processReceivers g rs names = .ok out →
      ∀ r2 ∈ out, ∃ r, r ∈ rs ∧ processReceiver g r = .ok r2 := by
  intro rs
  induction rs with
  | nil =>
    intro names out h r2 hr2
    unfold processReceivers at h
    injection h with h
    subst h
    exact absurd hr2 (List.not_mem_nil r2)
  | cons a as ih =>
    intro names out h r2 hr2
    unfold processReceivers at h
    split at h
    · exact Except.noConfusion h
    · cases h1 : processReceiver g a with
      | error e => rw [h1] at h; exact Except.noConfusion h
      | ok a2 =>
        rw [h1] at h
        cases h2 : processReceivers g as (a.Name :: names) with
        | error e => rw [h2] at h; exact Except.noConfusion h
        | ok out2 =>
          rw [h2] at h
          injection h with h
          subst h
          rcases List.mem_cons.mp hr2 with hr2 | hr2
          · subst hr2
            exact ⟨a, List.mem_cons_self a as, h1⟩
          · obtain ⟨r, hr, hrr⟩ := ih (a.Name :: names) out2 h2 r2 hr2
            exact ⟨r, List.mem_cons_of_mem a hr, hrr⟩

/-- Every input receiver of a successful receivers loop has its resolution in
the output. -/
theorem processReceivers_ok_forward (g : GlobalConfig) :
    ∀ (rs : List Receiver) (names : List String) (out : List Receiver),
      processReceivers g rs names = .ok out →
      ∀ r ∈ rs, ∃ r2, r2 ∈ out ∧ processReceiver g r = .ok r2 := by
  intro rs
  induction rs with
  | nil =>
    intro names out h r hr
    exact absurd hr (List.not_mem_nil r)
  | cons a as ih =>
    intro names out h r hr
    unfold processReceivers at h
    split at h
    · exact Except.noConfusion h
    · cases h1 : processReceiver g a with
      | error e => rw [h1] at h; exact Except.noConfusion h
      | ok a2 =>
        rw [h1] at h
        cases h2 : processReceivers g as (a.Name :: names) with
        | error e => rw [h2] at h; exact Except.noConfusion h
        | ok out2 =>
          rw [h2] at h
          injection h with h
          subst h
          rcases List.mem_cons.mp hr with hr | hr
          · subst hr
            exact ⟨a2, List.mem_cons_self a2 out2, h1⟩
          · obtain ⟨r2, hr2, hrr⟩ := ih (a.Name :: names) out2 h2 r hr
            exact ⟨r2, List.mem_cons_of_mem a2 hr2, hrr⟩

/-- The receivers loop preserves the list of receiver names. -/
theorem processReceivers_names (g : GlobalConfig) :
    ∀ (rs : List Receiver) (names : List String) (out : List Receiver),
      processReceivers g rs names = .ok out →
      out.map Receiver.Name = rs.map Receiver.Name := by
  intro rs
  induction rs with
  | nil =>
    intro names out h
    unfold processReceivers at h
    injection h with h
    subst h
    rfl
  | cons a as ih =>
    intro names out h
    unfold processReceivers at h
    split at h
    · exact Except.noConfusion h
    · cases h1 : processReceiver g a with
      | error e => rw [h1] at h; exact Except.noConfusion h
      | ok a2 =>
        rw [h1] at h
        cases h2 : processReceivers g as (a.Name :: names) with
        | error e => rw [h2] at h; exact Except.noConfusion h
        | ok out2 =>
          rw [h2] at h
          injection h with h
          subst h
          simp only [List.map_cons]
          rw [(processReceiver_fields g a a2 h1).2.2.2.2, ih (a.Name :: names) out2 h2]

/-- Inversion of a successful scalar route decode: all checks passed and the
output updates exactly the group-by fields. -/
theorem decodeRouteData_inv (d x : RouteData) (h : decodeRouteData d = .ok x) :
    ∃ gb all, buildGroupBy d.GroupByStr [] false = .ok (gb, all) ∧
      ¬(0 < gb.length ∧ all = true) ∧ checkDups gb [] = .ok () ∧
      d.GroupInterval ≠ some 0 ∧ d.RepeatInterval ≠ some 0 ∧
      x = { d with GroupBy := gb, GroupByAll := all } := by
  unfold decodeRouteData at h
  cases h1 : checkMatchRegexps d.MatchRE with
  | error e => simp only [h1] at h; exact Except.noConfusion h
  | ok u1 =>
    simp only [h1] at h
    cases h2 : checkMatchNames d.Match with
    | error e => simp only [h2] at h; exact Except.noConfusion h
    | ok u2 =>
      simp only [h2] at h
      cases h3 : buildGroupBy d.GroupByStr [] false with
      | error e => simp only [h3] at h; exact Except.noConfusion h
      | ok pr =>
        simp only [h3] at h
        obtain ⟨gb, all⟩ := pr
        split at h
        · exact Except.noConfusion h
        · next hw =>
          cases h4 : checkDups gb [] with
          | error e => simp only [h4] at h; exact Except.noConfusion h
          | ok u4 =>
            simp only [h4] at h
            split at h
            · exact Except.noConfusion h
            · next hgi =>
              split at h
              · exact Except.noConfusion h
              · next hri =>
                injection h with h
                cases u4
                exact ⟨gb, all, rfl, by simpa using hw, h4, hgi, hri, h.symm⟩

/-- A successful scalar route decode changes none of the fields outside
group-by: matchers, receiver, continue and the three durations survive. -/
theorem decodeRouteData_fields (d x : RouteData) (h : decodeRouteData d = .ok x) :
    x.Receiver = d.Receiver ∧ x.Match = d.Match ∧ x.MatchRE = d.MatchRE ∧
    x.Continue = d.Continue ∧ x.GroupWait = d.GroupWait ∧
    x.GroupInterval = d.GroupInterval ∧ x.RepeatInterval = d.RepeatInterval := by
  obtain ⟨gb, all, -, -, -, -, -, hx⟩ := decodeRouteData_inv d x h
  subst hx
  exact ⟨rfl, rfl, rfl, rfl, rfl, rfl, rfl⟩

/-- Inversion of a successful route node decode. -/
theorem decodeRoute_inv (d : RouteData) (cs : List Route) (r2 : Route)
    (h : decodeRoute (.node d cs) = .ok r2) :
    ∃ d2 cs2, r2 = .node d2 cs2 ∧ decodeRouteData d = .ok d2 ∧
      decodeRoutes cs = .ok cs2 := by
  unfold decodeRoute at h
  cases h1 : decodeRoutes cs with
  | error e => simp only [h1] at h; exact Except.noConfusion h
  | ok cs2 =>
    simp only [h1] at h
    cases h2 : decodeRouteData d with
    | error e => simp only [h2] at h; exact Except.noConfusion h
    | ok d2 =>
      simp only [h2] at h
      injection h with h
      exact ⟨d2, cs2, h.symm, rfl, rfl⟩

mutual

/-- Decoding preserves the receiver names of all nodes of a route tree. -/
theorem decodeRoute_receiverNames :
    ∀ (r r2 : Route), decodeRoute r = .ok r2 →
      (routeNodes r2).map RouteData.Receiver = (routeNodes r).map RouteData.Receiver
  | .node d cs, r2, h => by
    obtain ⟨d2, cs2, hr2, hd, hcs⟩ := decodeRoute_inv d cs r2 h
    subst hr2
    simp only [routeNodes, List.map_cons]
    rw [(decodeRouteData_fields d d2 hd).1, decodeRoutes_receiverNames cs cs2 hcs]

/-- Decoding preserves the receiver names of all nodes of a route forest. -/
theorem decodeRoutes_receiverNames :
    ∀ (rs rs2 : List Route), decodeRoutes rs = .ok rs2 →
      (routeNodesList rs2).map RouteData.Receiver =
        (routeNodesList rs).map RouteData.Receiver
  | [], rs2, h => by
    unfold decodeRoutes at h
    injection h with h
    subst h
    rfl
  | r :: rs, rs2, h => by
    unfold decodeRoutes at h
    cases h1 : decodeRoute r with
    | error e => simp only [h1] at h; exact Except.noConfusion h
    | ok r2 =>
      simp only [h1] at h
      cases h2 : decodeRoutes rs with
      | error e => simp only [h2] at h; exact Except.noConfusion h
      | ok rs3 =>
        simp only [h2] at h
        injection h with h
        subst h
        simp only [routeNodesList, List.map_append]
        rw [decodeRoute_receiverNames r r2 h1, decodeRoutes_receiverNames rs rs3 h2]

end

mutual

/-- When the referential-integrity check succeeds, every node with a non-empty
receiver names a known receiver. -/
theorem checkReceiver_ok_mem :
    ∀ (r : Route) (names : List String), checkReceiver r names = .ok () →
      ∀ nd ∈ routeNodes r, nd.Receiver ≠ "" → nd.Receiver ∈ names
  | .node d cs, names, h => by
    unfold checkReceiver at h
    cases h1 : checkReceiverList cs names with
    | error e => simp only [h1] at h; exact Except.noConfusion h
    | ok u =>
      simp only [h1] at h
      intro nd hnd hne
      simp only [routeNodes] at hnd
      rcases List.mem_cons.mp hnd with hnd | hnd
      · subst hnd
        split at h
        · next he => exact absurd he hne
        · split at h
          · next hc => exact hc
          · exact Except.noConfusion h
      · cases u
        exact checkReceiverList_ok_mem cs names h1 nd hnd hne

/-- List version of `checkReceiver_ok_mem`. -/
theorem checkReceiverList_ok_mem :
    ∀ (rs : List Route) (names : List String), checkReceiverList rs names = .ok () →
      ∀ nd ∈ routeNodesList rs, nd.Receiver ≠ "" → nd.Receiver ∈ names
  | [], names, h => by
    intro nd hnd
    simp only [routeNodesList] at hnd
    exact absurd hnd (List.not_mem_nil nd)
  | r :: rs, names, h => by
    unfold checkReceiverList at h
    cases h1 : checkReceiver r names with
    | error e => simp only [h1] at h; exact Except.noConfusion h
    | ok u =>
      simp only [h1] at h
      intro nd hnd hne
      simp only [routeNodesList] at hnd
      rcases List.mem_append.mp hnd with hnd | hnd
      · cases u
        exact checkReceiver_ok_mem r names h1 nd hnd hne
      · exact checkReceiverList_ok_mem rs names h nd hnd hne

end

mutual

/-- When the referential-integrity check fails, the error message names a
non-empty, unknown receiver that occurs at some node of the tree. -/
theorem checkReceiver_err_shape :
    ∀ (r : Route) (names : List String) (e : String),
      checkReceiver r names = .error e →
      ∃ v, e = "undefined receiver \x22" ++ v ++ "\x22 used in route" ∧
        v ≠ "" ∧ v ∉ names ∧ v ∈ (routeNodes r).map RouteData.Receiver
  | .node d cs, names, e, h => by
    unfold checkReceiver at h
    cases h1 : checkReceiverList cs names with
    | error e1 =>
      simp only [h1] at h
      injection h with h
      subst h
      obtain ⟨v, he, hv, hnm, hmem⟩ := checkReceiverList_err_shape cs names e1 h1
      refine ⟨v, he, hv, hnm, ?_⟩
      simp only [routeNodes, List.map_cons]
      exact List.mem_cons_of_mem _ hmem
    | ok u =>
      simp only [h1] at h
      split at h
      · exact Except.noConfusion h
      · split at h
        · exact Except.noConfusion h
        · next hne hnc =>
          injection h with h
          subst h
          refine ⟨d.Receiver, rfl, hne, hnc, ?_⟩
          simp only [routeNodes, List.map_cons]
          exact List.mem_cons_self _ _

/-- List version of `checkReceiver_err_shape`. -/
theorem checkReceiverList_err_shape :
    ∀ (rs : List Route) (names : List String) (e : String),
      checkReceiverList rs names = .error e →
      ∃ v, e = "undefined receiver \x22" ++ v ++ "\x22 used in route" ∧
        v ≠ "" ∧ v ∉ names ∧ v ∈ (routeNodesList rs).map RouteData.Receiver
  | [], names, e, h => by
    unfold checkReceiverList at h
    exact Except.noConfusion h
  | r :: rs, names, e, h => by
    unfold checkReceiverList at h
    cases h1 : checkReceiver r names with
    | error e1 =>
      simp only [h1] at h
      injection h with h
      subst h
      obtain ⟨v, he, hv, hnm, hmem⟩ := checkReceiver_err_shape r names e1 h1
      refine ⟨v, he, hv, hnm, ?_⟩
      simp only [routeNodesList, List.map_append]
      exact List.mem_append_left _ hmem
    | ok u =>
      simp only [h1] at h
      obtain ⟨v, he, hv, hnm, hmem⟩ := checkReceiverList_err_shape rs names e h
      refine ⟨v, he, hv, hnm, ?_⟩
      simp only [routeNodesList, List.map_append]
      exact List.mem_append_right _ hmem

end

/-- Characterization of a successful group-by build: the explicit list
collects the non-wildcard entries in order, and the wildcard flag records
whether `"..."` occurred. -/
theorem buildGroupBy_ok :
    ∀ (ls gb0 : List String) (all0 : Bool) (gb : List String) (all : Bool),
      buildGroupBy ls gb0 all0 = .ok (gb, all) →
      gb = gb0 ++ ls.filter (fun l => !(l == "...")) ∧
      all = (all0 || ls.any (fun l => l == "...")) := by
  intro ls
  induction ls with
  | nil =>
    intro gb0 all0 gb all h
    unfold buildGroupBy at h
    injection h with h
    injection h with h1 h2
    subst h1
    subst h2
    simp
  | cons l ls ih =>
    intro gb0 all0 gb all h
    unfold buildGroupBy at h
    split at h
    · next hl =>
      subst hl
      obtain ⟨e1, e2⟩ := ih gb0 true gb all h
      constructor
      · rw [e1]
        simp
      · rw [e2]
        simp
    · next hl =>
      split at h
      · exact Except.noConfusion h
      · obtain ⟨e1, e2⟩ := ih (gb0 ++ [l]) all0 gb all h
        constructor
        · rw [e1]
          simp [List.filter_cons, hl]
        · rw [e2]
          have hb : (l == "...") = false := beq_eq_false_iff_ne.mpr hl
          simp [List.any_cons, hb]

/-- A successful duplicate check means the explicit group-by list has no
repetitions and avoids everything already seen. -/
theorem checkDups_ok :
    ∀ (ls seen : List String), checkDups ls seen = .ok () →
      ls.Nodup ∧ ∀ l ∈ ls, l ∉ seen := by
  intro ls
  induction ls with
  | nil =>
    intro seen h
    exact ⟨List.nodup_nil, fun l hl => absurd hl (List.not_mem_nil l)⟩
  | cons a as ih =>
    intro seen h
    unfold checkDups at h
    split at h
    · exact Except.noConfusion h
    · next hc =>
      obtain ⟨hnd, hmem⟩ := ih (a :: seen) h
      refine ⟨List.nodup_cons.mpr ⟨?_, hnd⟩, ?_⟩
      · intro hmemas
        exact absurd (List.mem_cons_self a seen) (hmem a hmemas)
      · intro l hl
        rcases List.mem_cons.mp hl with hl | hl
        · subst hl
          exact hc
        · intro hins
          exact absurd (List.mem_cons_of_mem a hins) (hmem l hl)

/-- Inversion of a successful `Config.UnmarshalYAML` run: the route decoded,
the receivers loop succeeded, the root shape checks passed and referential
integrity holds, with the output assembled from the processed parts. -/
theorem configUnmarshal_inv (c cfg : Config) (h : Config.UnmarshalYAML c = .ok cfg) :
    ∃ rtIn rtDec rcvs2,
      c.Route = some rtIn ∧ decodeRoute rtIn = .ok rtDec ∧
      processReceivers (c.Global.getD DefaultGlobalConfig) c.Receivers [] = .ok rcvs2 ∧
      rtDec.data.Receiver ≠ "" ∧ rtDec.data.Match = [] ∧ rtDec.data.MatchRE = [] ∧
      checkReceiver rtDec (rcvs2.map Receiver.Name) = .ok () ∧
      cfg = { c with Global := some (c.Global.getD DefaultGlobalConfig),
                     Route := some rtDec, Receivers := rcvs2 } := by
  unfold Config.UnmarshalYAML at h
  cases hcr : c.Route with
  | none =>
    simp only [hcr, decodeRouteOpt] at h
    cases h2 : mapME Receiver.UnmarshalYAML c.Receivers with
    | error e => simp only [h2] at h; exact Except.noConfusion h
    | ok rdec =>
      simp only [h2] at h
      cases h3 : processReceivers (c.Global.getD DefaultGlobalConfig) rdec [] with
      | error e => simp only [h3] at h; exact Except.noConfusion h
      | ok rcvs2 => simp only [h3] at h; exact Except.noConfusion h
  | some rtIn =>
    simp only [hcr, decodeRouteOpt] at h
    cases h1 : decodeRoute rtIn with
    | error e => simp only [h1, Except.map] at h; exact Except.noConfusion h
    | ok rtDec =>
      simp only [h1, Except.map] at h
      cases h2 : mapME Receiver.UnmarshalYAML c.Receivers with
      | error e => simp only [h2] at h; exact Except.noConfusion h
      | ok rdec =>
        simp only [h2] at h
        have hid := mapME_receiver_id c.Receivers rdec h2
        subst hid
        cases h3 : processReceivers (c.Global.getD DefaultGlobalConfig) c.Receivers [] with
        | error e => simp only [h3] at h; exact Except.noConfusion h
        | ok rcvs2 =>
          simp only [h3] at h
          split at h
          · exact Except.noConfusion h
          · next hrlen =>
            split at h
            · exact Except.noConfusion h
            · next hmlen =>
              cases h4 : checkReceiver rtDec (rcvs2.map Receiver.Name) with
              | error e => simp only [h4] at h; exact Except.noConfusion h
              | ok u4 =>
                simp only [h4] at h
                injection h with h
                cases u4
                push_neg at hmlen
                refine ⟨rtIn, rtDec, rcvs2, rfl, h1, rfl, ?_, ?_, ?_, h4, h.symm⟩
                · intro he
                  exact hrlen (by rw [he]; rfl)
                · exact List.length_eq_zero.mp (Nat.le_zero.mp hmlen.1)
                · exact List.length_eq_zero.mp (Nat.le_zero.mp hmlen.2)

/-- Inversion of a successful `Load` on a non-empty document: the config
post-processing succeeded and the root route does not set `continue`. -/
theorem Load_some_inv (c cfg : Config) (h : Load (some c) = .ok cfg) :
    Config.UnmarshalYAML c = .ok cfg ∧
      ∃ rt, cfg.Route = some rt ∧ rt.data.Continue = false := by
  unfold Load at h
  cases h1 : Config.UnmarshalYAML c with
  | error e => simp only [h1] at h; exact Except.noConfusion h
  | ok cfg1 =>
    simp only [h1] at h
    cases h2 : cfg1.Route with
    | none => simp only [h2] at h; exact Except.noConfusion h
    | some rt =>
      simp only [h2] at h
      split at h
      · exact Except.noConfusion h
      · next hc =>
        injection h with h
        subst h
        exact ⟨rfl, rt, h2, Bool.eq_false_iff.mpr hc⟩

/-- An email config that omitted the smarthost resolves to a set global
smarthost. -/
theorem resolveEmail_smarthost (g : GlobalConfig) (ec ec2 : EmailConfig)
    (h : resolveEmail g ec = .ok ec2) (hsm : ec.Smarthost.String = "") :
    ec2.Smarthost = g.SMTPSmarthost ∧ g.SMTPSmarthost.String ≠ "" := by
  unfold resolveEmail at h
  split at h
  · exact Except.noConfusion h
  · next hboth =>
    split at h
    · exact Except.noConfusion h
    · injection h with h
      subst h
      constructor
      · simp only [hsm, if_pos]
      · intro hg
        exact hboth ⟨hsm, hg⟩

/-- With the smarthost unset both locally and globally, email resolution
fails with the named missing-global-default error. -/
theorem resolveEmail_no_smarthost (g : GlobalConfig) (ec : EmailConfig)
    (hg : g.SMTPSmarthost.String = "") (hsm : ec.Smarthost.String = "") :
    resolveEmail g ec = .error "no global SMTP smarthost set" := by
  unfold resolveEmail
  rw [if_pos ⟨hsm, hg⟩]

/-- C1 (corrected), counterexample: the claim says every constructed and
validated Matcher can be matched without a separate initialization step.  The
concrete regex matcher below is validated successfully, yet `Match`
dereferences the still-nil compiled regex (modeled by `none`): `Validate`
compiles the pattern only to check it and discards the result, and `Init` is
the separate mandatory step. -/
theorem C1_counterexample :
    Matcher.Validate ⟨"a", "b", true, none⟩ = .ok () ∧
    Matcher.Match ⟨"a", "b", true, none⟩ ([] : LabelSet) = none :=
  ⟨rfl, rfl⟩

/-- C1 (amended): a Matcher whose compiled regex is nil panics in `Match`
(the Init-before-Match pattern exists); after a successful `Init`, and for
matchers built by `NewRegexMatcher`, `Match` total and compiles nothing. -/
theorem C1_matcher_init_required :
    (∀ (m : Matcher) (lset : LabelSet), m.IsRegex = true → m.regex = none →
       m.Match lset = none) ∧
    (∀ (m m2 : Matcher), m.Init = .ok m2 →
       ∀ lset : LabelSet, (m2.Match lset).isSome = true) ∧
    (∀ (n : String) (g : GoRegex) (lset : LabelSet),
       ((NewRegexMatcher n g).Match lset).isSome = true) := by
  refine ⟨?_, ?_, ?_⟩
  · intro m lset hreg hnone
    simp [Matcher.Match, hreg, hnone]
  · intro m m2 h lset
    unfold Matcher.Init at h
    split at h
    · next hnr =>
      injection h with h
      subst h
      have hfalse : m.IsRegex = false := by simpa using hnr
      simp [Matcher.Match, hfalse]
    · next hr =>
      cases hc : regexpCompileAnchored m.Value with
      | none => simp only [hc] at h; exact Except.noConfusion h
      | some re =>
        simp only [hc] at h
        injection h with h
        subst h
        cases hmr : m.IsRegex <;> simp [Matcher.Match, hmr]
  · intro n g lset
    simp [Matcher.Match, NewRegexMatcher]

/-- C1, witness: a concrete regex matcher for which `Init` succeeds, after
which `Match` is defined. -/
theorem C1_witness :
    Matcher.Init ⟨"x", "a", true, none⟩ =
      .ok ⟨"x", "a", true,
        some ⟨.cat .bol (.cat (.cat (.lit 'a') .eps) .eol), "^(?:a)$"⟩⟩ ∧
    ((Matcher.Match
        ⟨"x", "a", true,
          some ⟨.cat .bol (.cat (.cat (.lit 'a') .eps) .eol), "^(?:a)$"⟩⟩)
        ([] : LabelSet)).isSome = true :=
  ⟨rfl,
    C1_matcher_init_required.2.1 ⟨"x", "a", true, none⟩
      ⟨"x", "a", true,
        some ⟨.cat .bol (.cat (.cat (.lit 'a') .eps) .eol), "^(?:a)$"⟩⟩
      rfl ([] : LabelSet)⟩

/-- C2: an exact matcher matches a label set exactly when the looked-up value
(absent means empty) equals the matcher value; substring search under the
anchored pattern `^(?:p)$` equals full-string matching of `p` (partial
matches never count); and a regex matcher built from the anchored compilation
of a pattern matches exactly when the entire label value matches the
pattern. -/
theorem C2_matcher_semantics :
    (∀ (n v : String) (lset : LabelSet),
       (NewMatcher n v).Match lset = some true ↔ lsetGet lset n = v) ∧
    (∀ (p : RE) (t : List Char), matchStringRE (anchorRE p) t = reFullMatch p t) ∧
    (∀ (s : String) (p : RE) (rx : Regexp) (g : GoRegex) (n : String)
        (lset : LabelSet),
       parseRE s = some p → Regexp.UnmarshalYAML s = .ok rx → rx.regex = some g →
       ((NewRegexMatcher n g).Match lset = some true ↔
          reFullMatch p (lsetGet lset n).data = true)) := by
  refine ⟨?_, matchStringRE_anchorRE, ?_⟩
  · intro n v lset
    simp [NewMatcher, Matcher.Match]
  · intro s p rx g n lset hp hrx hg
    unfold Regexp.UnmarshalYAML regexpCompileAnchored at hrx
    rw [hp] at hrx
    simp only [Option.map] at hrx
    injection hrx with hrx
    subst hrx
    simp only at hg
    injection hg with hg
    subst hg
    simp [NewRegexMatcher, Matcher.Match, GoRegex.MatchString, matchStringRE_anchorRE]

/-- C2, witness: the pattern `a`, compiled and anchored through
`Regexp.UnmarshalYAML`, does not match the label value `ab` even though `a`
is a substring of it, and the exact matcher semantics holds at a concrete
label set. -/
theorem C2_witness :
    parseRE "a" = some (.cat (.lit 'a') .eps) ∧
    Regexp.UnmarshalYAML "a" =
      .ok ⟨some ⟨.cat .bol (.cat (.cat (.lit 'a') .eps) .eol), "^(?:a)$"⟩, "a"⟩ ∧
    ((NewRegexMatcher "sev" ⟨.cat .bol (.cat (.cat (.lit 'a') .eps) .eol), "^(?:a)$"⟩).Match
        [("sev", "ab")] = some true ↔
      reFullMatch (.cat (.lit 'a') .eps) ("ab".data) = true) ∧
    (NewRegexMatcher "sev" ⟨.cat .bol (.cat (.cat (.lit 'a') .eps) .eol), "^(?:a)$"⟩).Match
        [("sev", "ab")] = some false ∧
    ((NewMatcher "sev" "crit").Match [("sev", "crit")] = some true ↔
      lsetGet [("sev", "crit")] "sev" = "crit") :=
  ⟨rfl, rfl,
    C2_matcher_semantics.2.2 "a" (.cat (.lit 'a') .eps)
      ⟨some ⟨.cat .bol (.cat (.cat (.lit 'a') .eps) .eol), "^(?:a)$"⟩, "a"⟩
      ⟨.cat .bol (.cat (.cat (.lit 'a') .eps) .eol), "^(?:a)$"⟩
      "sev" [("sev", "ab")] rfl rfl rfl,
    rfl,
    C2_matcher_semantics.1 "sev" "crit" [("sev", "crit")]⟩

/-- C4: the `Matchers` order is primary name, secondary value, and exact
before regex on full ties; sorting with `NewMatchers` is idempotent. -/
theorem C4_matchers_order :
    (∀ a b : Matcher, matcherLess a b = true ↔
       a.Name < b.Name ∨ a.Name = b.Name ∧
         (a.Value < b.Value ∨ a.Value = b.Value ∧
           a.IsRegex = false ∧ b.IsRegex = true)) ∧
    (∀ ms : List Matcher, NewMatchers (NewMatchers ms) = NewMatchers ms) :=
  ⟨matcherLess_iff, NewMatchers_idempotent⟩

/-- C9: set secrets and secret URLs marshal to the fixed placeholder (never
the real value), the placeholder unmarshals to the empty-but-present URL
sentinel without being parsed as a URL, and marshal-then-unmarshal of any set
secret URL yields the sentinel (in YAML, and with both placeholder encodings
in JSON). -/
theorem C9_secret_redaction :
    (∀ s : Secret, s ≠ "" → Secret.MarshalYAML s = some secretToken) ∧
    (∀ s : Secret, Secret.MarshalJSON s = secretTokenJSON) ∧
    (∀ u : URLm, SecretURL.MarshalYAML (some u) = some secretToken) ∧
    SecretURL.UnmarshalYAML secretToken = .ok (some emptyURL) ∧
    (∀ u : URLm,
       SecretURL.UnmarshalYAML ((SecretURL.MarshalYAML (some u)).getD "") =
         .ok (some emptyURL)) ∧
    SecretURL.UnmarshalJSON secretToken = .ok (some emptyURL) ∧
    SecretURL.UnmarshalJSON secretTokenJSON = .ok (some emptyURL) := by
  refine ⟨?_, fun s => rfl, fun u => rfl, rfl, fun u => rfl, rfl, rfl⟩
  intro s hs
  unfold Secret.MarshalYAML
  rw [if_pos hs]

/-- C9, witness: the non-empty secret `x` marshals to the placeholder. -/
theorem C9_witness :
    ("x" : Secret) ≠ "" ∧ Secret.MarshalYAML "x" = some secretToken :=
  ⟨by decide, C9_secret_redaction.1 "x" (by decide)⟩

/-- C3: `Load` succeeds only when a root route is present whose `match` and
`match_re` are empty, whose `continue` is false and whose receiver is
non-empty; an empty document (no route) and any root violation yield an error
and no config. -/
theorem C3_load_root_invariants :
    (∀ cfg : Config, Load none = .ok cfg → False) ∧
    (∀ c cfg : Config, Load (some c) = .ok cfg →
       ∃ rt, c.Route = some rt ∧ rt.data.Match = [] ∧ rt.data.MatchRE = [] ∧
         rt.data.Continue = false ∧ rt.data.Receiver ≠ "") := by
  constructor
  · intro cfg h
    have hnone : Load none = .error "no route provided in config" := rfl
    rw [hnone] at h
    exact Except.noConfusion h
  · intro c cfg h
    obtain ⟨hun, rt2, hrt2, hcont⟩ := Load_some_inv c cfg h
    obtain ⟨rtIn, rtDec, rcvs2, hcr, hdec, hproc, hrne, hm, hmre, hchk, hcfg⟩ :=
      configUnmarshal_inv c cfg hun
    have hroute : cfg.Route = some rtDec := by rw [hcfg]
    rw [hroute] at hrt2
    injection hrt2 with hrt2
    subst hrt2
    cases rtIn with
    | node d cs =>
      obtain ⟨d2, cs2, hshape, hd, hcs⟩ := decodeRoute_inv d cs rtDec hdec
      subst hshape
      obtain ⟨f1, f2, f3, f4, -, -, -⟩ := decodeRouteData_fields d d2 hd
      refine ⟨Route.node d cs, hcr, ?_, ?_, ?_, ?_⟩
      · show d.Match = []
        rw [← f2]
        exact hm
      · show d.MatchRE = []
        rw [← f3]
        exact hmre
      · show d.Continue = false
        rw [← f4]
        exact hcont
      · show d.Receiver ≠ ""
        rw [← f1]
        exact hrne

/-- The concrete minimal valid config of the C3 witness. -/
def cfgC3 : Config :=
  { Route := some (.node { Receiver := "default" } [])
    Receivers := [{ Name := "default" }] }

/-- C3, witness: the minimal valid config loads, and its root route indeed
satisfies all the root invariants. -/
theorem C3_witness :
    (∃ cfg, Load (some cfgC3) = .ok cfg) ∧
    cfgC3.Route = some (.node { Receiver := "default" } []) ∧
    (Route.node { Receiver := "default" } []).data.Match = [] ∧
    (Route.node { Receiver := "default" } []).data.Continue = false ∧
    (Route.node { Receiver := "default" } []).data.Receiver ≠ "" := by
  obtain ⟨cfg, hcfg⟩ : ∃ cfg, Load (some cfgC3) = .ok cfg := ⟨_, rfl⟩
  obtain ⟨rt, hcr, hm, hmre, hcont, hrne⟩ := C3_load_root_invariants.2 cfgC3 cfg hcfg
  have hrt : rt = .node { Receiver := "default" } [] := by
    have : some (Route.node { Receiver := "default" } []) = some rt := by
      rw [← hcr]; rfl
    injection this with h
    exact h.symm
  subst hrt
  exact ⟨⟨cfg, hcfg⟩, rfl, hm, hcont, hrne⟩

/-- C6 (corrected), counterexample: the claim says a present-but-zero
`group_wait` fails the load, but a config whose root route sets
`group_wait: 0` loads successfully — only `group_interval` and
`repeat_interval` are checked for zero. -/
theorem C6_counterexample :
    (Load (some { Route := some (.node { Receiver := "default", GroupWait := some 0 } [])
                  Receivers := [{ Name := "default" }] })).toOption.isSome = true ∧
    (Route.node { Receiver := "default", GroupWait := some 0 } []).data.GroupWait =
      some 0 :=
  ⟨rfl, rfl⟩

/-- C6 (amended): a present-but-zero `group_interval` or `repeat_interval`
fails the route decode; `group_wait` has no zero check; all three duration
fields pass through the decode unchanged, so an absent field stays `none`
(inherit). -/
theorem C6_interval_validation :
    (∀ d : RouteData, d.GroupInterval = some 0 → ∀ x, decodeRouteData d ≠ .ok x) ∧
    (∀ d : RouteData, d.RepeatInterval = some 0 → ∀ x, decodeRouteData d ≠ .ok x) ∧
    (∀ d x, decodeRouteData d = .ok x →
       x.GroupWait = d.GroupWait ∧ x.GroupInterval = d.GroupInterval ∧
       x.RepeatInterval = d.RepeatInterval) := by
  refine ⟨?_, ?_, ?_⟩
  · intro d hgi x hok
    obtain ⟨gb, all, -, -, -, hne, -, -⟩ := decodeRouteData_inv d x hok
    exact hne hgi
  · intro d hri x hok
    obtain ⟨gb, all, -, -, -, -, hne, -⟩ := decodeRouteData_inv d x hok
    exact hne hri
  · intro d x hok
    obtain ⟨gb, all, -, -, -, -, -, hx⟩ := decodeRouteData_inv d x hok
    subst hx
    exact ⟨rfl, rfl, rfl⟩

/-- C6, witness: a route with `group_interval: 0` is rejected by the decode
at a concrete input. -/
theorem C6_witness :
    ({ GroupInterval := some 0 } : RouteData).GroupInterval = some 0 ∧
    decodeRouteData { GroupInterval := some 0 } ≠
      .ok ({ GroupInterval := some 0 } : RouteData) :=
  ⟨rfl, C6_interval_validation.1 { GroupInterval := some 0 } rfl _⟩

/-- C7: an email config that omits the smarthost resolves to the global
smarthost, which must then be set; with the smarthost unset both locally and
globally the load fails with the named missing-global-default error; at the
`Load` level, after any successful load every input email config that omitted
the smarthost has a resolved counterpart equal to the (set) global value. -/
theorem C7_smarthost_defaulting :
    (∀ (g : GlobalConfig) (ec ec2 : EmailConfig), resolveEmail g ec = .ok ec2 →
       ec.Smarthost.String = "" →
       ec2.Smarthost = g.SMTPSmarthost ∧ g.SMTPSmarthost.String ≠ "") ∧
    (∀ (g : GlobalConfig) (ec : EmailConfig),
       g.SMTPSmarthost.String = "" → ec.Smarthost.String = "" →
       resolveEmail g ec = .error "no global SMTP smarthost set") ∧
    (∀ (c cfg : Config), Load (some c) = .ok cfg →
       ∀ r ∈ c.Receivers, ∀ ec ∈ r.EmailConfigs, ec.Smarthost.String = "" →
         (c.Global.getD DefaultGlobalConfig).SMTPSmarthost.String ≠ "" ∧
         ∃ r2 ∈ cfg.Receivers, ∃ ec2 ∈ r2.EmailConfigs,
           ec2.Smarthost = (c.Global.getD DefaultGlobalConfig).SMTPSmarthost) := by
  refine ⟨resolveEmail_smarthost, resolveEmail_no_smarthost, ?_⟩
  intro c cfg h r hr ec hec hsm
  obtain ⟨hun, -⟩ := Load_some_inv c cfg h
  obtain ⟨rtIn, rtDec, rcvs2, -, -, hproc, -, -, -, -, hcfg⟩ :=
    configUnmarshal_inv c cfg hun
  obtain ⟨r2, hr2, hpr⟩ := processReceivers_ok_forward _ _ _ _ hproc r hr
  obtain ⟨hemails, -, -, -, -⟩ := processReceiver_fields _ _ _ hpr
  obtain ⟨ec2, hec2, hres⟩ := mapME_ok_forward _ _ _ hemails ec hec
  obtain ⟨hsm2, hgne⟩ := resolveEmail_smarthost _ _ _ hres hsm
  refine ⟨hgne, r2, ?_, ec2, hec2, hsm2⟩
  rw [hcfg]
  exact hr2

/-- The global config of the C7 witness: smarthost and from set. -/
def gC7 : GlobalConfig :=
  { SMTPSmarthost := ⟨"smtp.example.com", "25"⟩, SMTPFrom := "admin@example.org" }

/-- C7, witness: an email config omitting the smarthost resolves to the
global `smtp.example.com:25`. -/
theorem C7_witness :
    resolveEmail gC7 ({} : EmailConfig) =
      .ok { Smarthost := ⟨"smtp.example.com", "25"⟩, From := "admin@example.org"
            RequireTLS := some false } ∧
    ({ Smarthost := ⟨"smtp.example.com", "25"⟩, From := "admin@example.org"
       RequireTLS := some false } : EmailConfig).Smarthost = gC7.SMTPSmarthost ∧
    gC7.SMTPSmarthost.String ≠ "" := by
  have h : resolveEmail gC7 ({} : EmailConfig) =
      .ok { Smarthost := ⟨"smtp.example.com", "25"⟩, From := "admin@example.org"
            RequireTLS := some false } := rfl
  obtain ⟨h1, h2⟩ := C7_smarthost_defaulting.1 gC7 {} _ h rfl
  exact ⟨h, h1, h2⟩

/-- C5: after any successful load, every route node (at any depth) with a
non-empty receiver names a defined receiver; and whenever some node violates
this, the referential-integrity check fails with an error naming a violating
receiver value. -/
theorem C5_undefined_receiver :
    (∀ (c cfg : Config) (rt : Route), Load (some c) = .ok cfg → c.Route = some rt →
       ∀ nd ∈ routeNodes rt, nd.Receiver ≠ "" →
         nd.Receiver ∈ c.Receivers.map Receiver.Name) ∧
    (∀ (r : Route) (names : List String),
       (∃ nd ∈ routeNodes r, nd.Receiver ≠ "" ∧ nd.Receiver ∉ names) →
       ∃ v, v ≠ "" ∧ v ∉ names ∧ v ∈ (routeNodes r).map RouteData.Receiver ∧
         checkReceiver r names =
           .error ("undefined receiver \x22" ++ v ++ "\x22 used in route")) := by
  constructor
  · intro c cfg rt h hcr nd hnd hne
    obtain ⟨hun, -⟩ := Load_some_inv c cfg h
    obtain ⟨rtIn, rtDec, rcvs2, hcr2, hdec, hproc, -, -, -, hchk, -⟩ :=
      configUnmarshal_inv c cfg hun
    rw [hcr] at hcr2
    injection hcr2 with he
    subst he
    have hnames := processReceivers_names _ _ _ _ hproc
    have hvmem : nd.Receiver ∈ (routeNodes rtDec).map RouteData.Receiver := by
      rw [decodeRoute_receiverNames rt rtDec hdec]
      exact List.mem_map_of_mem _ hnd
    obtain ⟨nd2, hnd2, hv⟩ := List.mem_map.mp hvmem
    have hin := checkReceiver_ok_mem rtDec (rcvs2.map Receiver.Name) hchk nd2 hnd2
      (by rw [hv]; exact hne)
    rw [hv, hnames] at hin
    exact hin
  · rintro r names ⟨nd, hnd, hne, hnm⟩
    cases hco : checkReceiver r names with
    | ok u =>
      cases u
      exact absurd (checkReceiver_ok_mem r names hco nd hnd hne) hnm
    | error e =>
      obtain ⟨v, he, hv, hvnm, hvmem⟩ := checkReceiver_err_shape r names e hco
      subst he
      exact ⟨v, hv, hvnm, hvmem, rfl⟩

/-- The route tree of the C5 witness: a child references an undefined
receiver. -/
def rC5 : Route :=
  .node { Receiver := "root" } [.node { Receiver := "nope" } []]

/-- C5, witness: the check run against the name set of the defined receivers
reports the undefined receiver of the nested node. -/
theorem C5_witness :
    ∃ v, v ≠ "" ∧ v ∉ ["root"] ∧
      v ∈ (routeNodes rC5).map RouteData.Receiver ∧
      checkReceiver rC5 ["root"] =
        .error ("undefined receiver \x22" ++ v ++ "\x22 used in route") :=
  C5_undefined_receiver.2 rC5 ["root"]
    ⟨{ Receiver := "nope" }, by decide, by decide, by decide⟩

/-- C8: combining the wildcard `...` with any other `group_by` entry fails
the route decode, as does a repeated explicit label; `group_by: ["..."]`
alone decodes with the wildcard flag set and an empty explicit list. -/
theorem C8_group_by :
    (∀ d : RouteData, "..." ∈ d.GroupByStr → (∃ l ∈ d.GroupByStr, l ≠ "...") →
       ∀ x, decodeRouteData d ≠ .ok x) ∧
    (∀ (d : RouteData) (l : String), l ≠ "..." → 2 ≤ d.GroupByStr.count l →
       ∀ x, decodeRouteData d ≠ .ok x) ∧
    (∀ d x, decodeRouteData d = .ok x → d.GroupByStr = ["..."] →
       x.GroupByAll = true ∧ x.GroupBy = []) := by
  refine ⟨?_, ?_, ?_⟩
  · rintro d hdots ⟨l, hl, hlne⟩ x hok
    obtain ⟨gb, all, hb, hw, -, -, -, -⟩ := decodeRouteData_inv d x hok
    obtain ⟨e1, e2⟩ := buildGroupBy_ok _ _ _ _ _ hb
    apply hw
    constructor
    · rw [e1]
      simp only [List.nil_append]
      have hmem : l ∈ d.GroupByStr.filter (fun s => !(s == "...")) :=
        List.mem_filter.mpr ⟨hl, by simpa using hlne⟩
      exact List.length_pos.mpr (List.ne_nil_of_mem hmem)
    · rw [e2]
      simp only [Bool.false_or]
      exact List.any_eq_true.mpr ⟨"...", hdots, by simp⟩
  · intro d l hlne hcount x hok
    obtain ⟨gb, all, hb, -, hdup, -, -, -⟩ := decodeRouteData_inv d x hok
    obtain ⟨e1, -⟩ := buildGroupBy_ok _ _ _ _ _ hb
    obtain ⟨hnd, -⟩ := checkDups_ok gb [] hdup
    rw [e1] at hnd
    simp only [List.nil_append] at hnd
    have hc2 : 2 ≤ (d.GroupByStr.filter (fun s => !(s == "..."))).count l := by
      rw [List.count_filter (by simpa using hlne)]
      exact hcount
    have hle := List.nodup_iff_count_le_one.mp hnd l
    omega
  · intro d x hok hgbs
    obtain ⟨gb, all, hb, -, -, -, -, hx⟩ := decodeRouteData_inv d x hok
    rw [hgbs] at hb
    have hconc : buildGroupBy ["..."] [] false = .ok ([], true) := rfl
    rw [hconc] at hb
    injection hb with hb
    injection hb with hb1 hb2
    subst hx
    constructor
    · show all = true
      exact hb2.symm
    · show gb = []
      exact hb1.symm

/-- C8, witness: `group_by: ["..."]` alone decodes, setting the wildcard flag
and leaving the explicit list empty. -/
theorem C8_witness :
    decodeRouteData { Receiver := "d", GroupByStr := ["..."] } =
      .ok { Receiver := "d", GroupByStr := ["..."], GroupByAll := true } ∧
    ({ Receiver := "d", GroupByStr := ["..."], GroupByAll := true } :
        RouteData).GroupByAll = true ∧
    ({ Receiver := "d", GroupByStr := ["..."], GroupByAll := true } :
        RouteData).GroupBy = [] := by
  have h : decodeRouteData { Receiver := "d", GroupByStr := ["..."] } =
      .ok { Receiver := "d", GroupByStr := ["..."], GroupByAll := true } := rfl
  obtain ⟨h1, h2⟩ := C8_group_by.2.2 _ _ h rfl
  exact ⟨h, h1, h2⟩

/-- C10: after every successful load, every OpsGenie, WeChat and VictorOps
channel config carries an API URL whose path ends in the separator — whether
the URL was defaulted from the global config or set explicitly. -/
theorem C10_api_url_slash :
    ∀ (inp : Option Config) (cfg : Config), Load inp = .ok cfg →
      ∀ r ∈ cfg.Receivers,
        (∀ c ∈ r.OpsGenieConfigs, ∃ u, c.APIURL = some u ∧ endsWithSlash u.Path = true) ∧
        (∀ c ∈ r.WechatConfigs, ∃ u, c.APIURL = some u ∧ endsWithSlash u.Path = true) ∧
        (∀ c ∈ r.VictorOpsConfigs,
          ∃ u, c.APIURL = some u ∧ endsWithSlash u.Path = true) := by
  intro inp cfg h r hr
  cases inp with
  | none =>
    have hnone : Load none = .error "no route provided in config" := rfl
    rw [hnone] at h
    exact Except.noConfusion h
  | some c =>
    obtain ⟨hun, -⟩ := Load_some_inv c cfg h
    obtain ⟨rtIn, rtDec, rcvs2, -, -, hproc, -, -, -, -, hcfg⟩ :=
      configUnmarshal_inv c cfg hun
    have hr2 : r ∈ rcvs2 := by
      rw [hcfg] at hr
      exact hr
    obtain ⟨rin, -, hpr⟩ := processReceivers_ok_backward _ _ _ _ hproc r hr2
    obtain ⟨-, hog, hwc, hvo, -⟩ := processReceiver_fields _ _ _ hpr
    refine ⟨?_, ?_, ?_⟩
    · intro ch hch
      obtain ⟨cin, -, hres⟩ := mapME_ok_backward _ _ _ hog ch hch
      exact resolveOpsGenie_slash _ _ _ hres
    · intro ch hch
      obtain ⟨cin, -, hres⟩ := mapME_ok_backward _ _ _ hwc ch hch
      exact resolveWechat_slash _ _ _ hres
    · intro ch hch
      obtain ⟨cin, -, hres⟩ := mapME_ok_backward _ _ _ hvo ch hch
      exact resolveVictorOps_slash _ _ _ hres

/-- The input config of the C10 witness: an explicitly set OpsGenie API URL
whose path lacks the trailing separator. -/
def cfgC10 : Config :=
  { Route := some (.node { Receiver := "default" } [])
    Receivers := [{ Name := "default"
                    OpsGenieConfigs :=
                      [{ APIURL := some ⟨"https", "api.example.com", "/v2"⟩
                         APIKey := "k" }] }] }

/-- The resolved OpsGenie config of the C10 witness. -/
def ogC10out : OpsGenieConfig :=
  { HTTPConfig := some ()
    APIURL := some ⟨"https", "api.example.com", "/v2/"⟩
    APIKey := "k" }

/-- The resolved receiver of the C10 witness. -/
def rcvC10out : Receiver :=
  { Name := "default", OpsGenieConfigs := [ogC10out] }

/-- The loaded config of the C10 witness. -/
def cfgC10out : Config :=
  { Global := some DefaultGlobalConfig
    Route := some (.node { Receiver := "default" } [])
    Receivers := [rcvC10out] }

/-- C10, witness: loading the config with the explicit slash-less OpsGenie
URL succeeds and the resolved URL path ends in the separator. -/
theorem C10_witness :
    Load (some cfgC10) = .ok cfgC10out ∧
    endsWithSlash (⟨"https", "api.example.com", "/v2/"⟩ : URLm).Path = true := by
  have hcfg : Load (some cfgC10) = .ok cfgC10out := rfl
  have h := (C10_api_url_slash (some cfgC10) cfgC10out hcfg rcvC10out
      (List.mem_cons_self _ _)).1 ogC10out (List.mem_cons_self _ _)
  obtain ⟨u, hu, hs⟩ := h
  have hu2 : u = ⟨"https", "api.example.com", "/v2/"⟩ := by
    have heq : some u = some (⟨"https", "api.example.com", "/v2/"⟩ : URLm) := by
      rw [← hu]
      rfl
    injection heq
  subst hu2
  exact ⟨hcfg, hs⟩
